import Mathlib

/-!
Shallow embedding of the PPO trainer (`ppo_trainer.py`) and proofs about it.

Numeric tensor values are modelled over `ℚ` where the code performs only
field arithmetic (GAE, the epoch loop of `train_step`, checkpoint data), and
over `ℝ` where the code evaluates transcendental functions
(`exp`/`log` in the Normal and Categorical distributions).
-/

namespace PPOSpec

/-! ### `PPOTrainer.compute_gae`

The Python loop runs `t` backward from `H-1` to `0`, carrying `last_gae`:

    next_value_t = next_value if t == H-1 else values[t+1]
    delta = rewards[t] + gamma * next_value_t * (1 - dones[t]) - values[t]
    advantages[t] = last_gae = delta + gamma * gae_lambda * (1 - dones[t]) * last_gae
    returns = advantages + values

The recursion below computes the same advantage list front-first: the
recursive call yields the advantages for indices `t+1 .. H-1`, whose head is
the carried `last_gae` (0 when the tail is empty, matching the initial
`last_gae = 0`), and the head of the tail of `values` is `values[t+1]`
(`next_value` when absent, matching the `t == H-1` branch). -/

def computeGaeList (gamma lam : ℚ) : List ℚ → List ℚ → List ℚ → ℚ → List ℚ
  | r :: rs, v :: vs, d :: ds, nextValue =>
    let rest := computeGaeList gamma lam rs vs ds nextValue
    let nvt : ℚ := match vs with
      | [] => nextValue
      | v1 :: _ => v1
    let lastGae : ℚ := match rest with
      | [] => 0
      | a :: _ => a
    let delta := r + gamma * nvt * (1 - d) - v
    (delta + gamma * lam * (1 - d) * lastGae) :: rest
  | _, _, _, _ => []

/-- Python `compute_gae` returns the pair `(advantages, returns)` with
`returns = advantages + values` (elementwise). -/
def computeGae (gamma lam : ℚ) (rewards values dones : List ℚ) (nextValue : ℚ) :
    List ℚ × List ℚ :=
  let advantages := computeGaeList gamma lam rewards values dones nextValue
  (advantages, advantages.zipWith (· + ·) values)

/-! ### `PPOTrainer.train_step`

The epoch loop of `train_step` is modelled over an abstract parameter
type `σ` (the actor/critic weights plus optimizer state).  The batch is
fixed for the whole call, so the loss, value loss and approximate KL of one
epoch are functions of the current parameters only, and one optimizer step
(`zero_grad`; `backward`; `clip_grad_norm_`; `step` on both optimizers) is a
function `grad : σ → σ`.  Each epoch first records its metrics, then checks
`kl > 1.5 * target_kl` and breaks without stepping if so, else applies the
gradient step and continues; the Python loop bound is `range(10)`. -/

structure UpdateResult (σ : Type) where
  totalLosses : List ℚ
  valueLosses : List ℚ
  klDivs : List ℚ
  finalParams : σ
  appliedSteps : Nat

def trainStepEpochs {σ : Type} (loss vloss kl : σ → ℚ) (grad : σ → σ) (targetKl : ℚ) :
    Nat → σ → UpdateResult σ
  | 0, p => ⟨[], [], [], p, 0⟩
  | n + 1, p =>
    if kl p > 3 / 2 * targetKl then
      ⟨[loss p], [vloss p], [kl p], p, 0⟩
    else
      let rest := trainStepEpochs loss vloss kl grad targetKl n (grad p)
      ⟨loss p :: rest.totalLosses, vloss p :: rest.valueLosses, kl p :: rest.klDivs,
        rest.finalParams, rest.appliedSteps + 1⟩

def listMean (xs : List ℚ) : ℚ := xs.sum / (xs.length : ℚ)

structure TrainMetrics where
  totalLoss : ℚ
  valueLoss : ℚ
  klDiv : ℚ

/-- Python `train_step`: run up to 10 epochs, then return the metric averages
(`np.mean` over the recorded per-epoch lists), together with the final
parameters and the number of applied gradient steps. -/
def trainStep {σ : Type} (loss vloss kl : σ → ℚ) (grad : σ → σ) (targetKl : ℚ) (p0 : σ) :
    TrainMetrics × σ × Nat :=
  let r := trainStepEpochs loss vloss kl grad targetKl 10 p0
  (⟨listMean r.totalLosses, listMean r.valueLosses, listMean r.klDivs⟩,
    r.finalParams, r.appliedSteps)

/-! ### Continuous branch of `compute_ppo_loss`

`Actor.forward` (continuous) emits a mean and a log-std per action
dimension, clamping the log-std to `[-20, 2]`; `compute_ppo_loss` builds
`Normal(mean, exp(log_std))`, takes `log_prob(actions).sum(dim=-1)` for the
new joint log-probabilities, and `dist.entropy().mean()` — a mean over every
entry of the (batch × action_dim) entropy matrix — for the entropy term. -/

def clampQ (lo hi x : ℚ) : ℚ := max lo (min x hi)

noncomputable def stdOfLogStd (logStd : ℚ) : ℝ := Real.exp ((clampQ (-20) 2 logStd : ℚ) : ℝ)

/-- Torch `Normal.log_prob`:
`-(x-μ)² / (2σ²) - log σ - log √(2π)`. -/
noncomputable def normalLogPdf (mean std x : ℝ) : ℝ :=
  -((x - mean) ^ 2) / (2 * std ^ 2) - Real.log std - Real.log (Real.sqrt (2 * Real.pi))

/-- Torch `Normal.entropy`: `1/2 + 1/2·log(2π) + log σ`. -/
noncomputable def normalEntropy (std : ℝ) : ℝ :=
  1 / 2 + 1 / 2 * Real.log (2 * Real.pi) + Real.log std

/-- One row (one state) of `dist.log_prob(actions).sum(dim=-1)`. -/
noncomputable def rowLogProb (mRow lsRow aRow : List ℚ) : ℝ :=
  ((mRow.zip (lsRow.zip aRow)).map
    (fun p => normalLogPdf (p.1 : ℝ) (stdOfLogStd p.2.1) (p.2.2 : ℝ))).sum

/-- Code line `new_log_probs = dist.log_prob(actions).sum(dim=-1)`, per batch row. -/
noncomputable def newLogProbsCont (means logStds acts : List (List ℚ)) : List ℝ :=
  (means.zip (logStds.zip acts)).map (fun p => rowLogProb p.1 p.2.1 p.2.2)

/-- The (batch × action_dim) matrix `dist.entropy()` of per-element Normal
entropies. -/
noncomputable def entropyRows (logStds : List (List ℚ)) : List (List ℝ) :=
  logStds.map (fun row => row.map (fun ls => normalEntropy (stdOfLogStd ls)))

/-- Code line `entropy = dist.entropy().mean()`: the mean over every entry of the
entropy matrix (flattened). -/
noncomputable def contEntropyTerm (logStds : List (List ℚ)) : ℝ :=
  ((entropyRows logStds).flatten.sum) / (((entropyRows logStds).flatten.length : ℕ) : ℝ)

/-- Modelled from the spec's words: the entropy term as the spec states it
for the continuous variant — the per-state sum of per-dimension Normal
entropies, averaged over the batch.  Defined only to be compared against
`contEntropyTerm`, the term the code computes. -/
noncomputable def contEntropySpecSum (logStds : List (List ℚ)) : ℝ :=
  (((entropyRows logStds).map List.sum).sum) / (((entropyRows logStds).length : ℕ) : ℝ)

/-! ### `MultiCategorical` and `_kl_multi`

`MultiCategorical.__init__` splits one contiguous logits vector by the
per-dimension cardinalities `nvec` (`torch.split`), building one
`Categorical` per dimension.  `log_prob` sums the per-dimension categorical
log-probabilities of the action components, `entropy` sums the
per-dimension entropies, `mode` stacks the per-dimension `argmax` of the
split logits, and `_kl_multi` sums the per-dimension categorical KLs. -/

def splitLogits : List ℚ → List Nat → List (List ℚ)
  | _, [] => []
  | xs, n :: ns => xs.take n :: splitLogits (xs.drop n) ns

noncomputable def catZ (logits : List ℚ) : ℝ :=
  (logits.map (fun x => Real.exp (x : ℝ))).sum

/-- Torch `Categorical.log_prob i = logits[i] - logsumexp(logits)`. -/
noncomputable def catLogProb (logits : List ℚ) (i : Nat) : ℝ :=
  ((logits.getD i 0 : ℚ) : ℝ) - Real.log (catZ logits)

/-- Torch `Categorical` probability of index `i` (softmax of the logits). -/
noncomputable def catProb (logits : List ℚ) (i : Nat) : ℝ :=
  Real.exp ((logits.getD i 0 : ℚ) : ℝ) / catZ logits

/-- Torch `Categorical.entropy = -Σ_i p_i · log p_i`. -/
noncomputable def catEntropy (logits : List ℚ) : ℝ :=
  -(((List.range logits.length).map (fun i => catProb logits i * catLogProb logits i)).sum)

/-- Torch `kl_divergence(Categorical, Categorical) = Σ_i p_i (log p_i - log q_i)`. -/
noncomputable def catKl (p q : List ℚ) : ℝ :=
  ((List.range p.length).map (fun i => catProb p i * (catLogProb p i - catLogProb q i))).sum

/-- Torch `argmax` over a vector: index of the first maximal entry. -/
def argmaxIdx : List ℚ → Nat
  | [] => 0
  | x :: xs =>
    let j := argmaxIdx xs
    if x < xs.getD j x then j + 1 else 0

/-- Python `MultiCategorical.log_prob`: sum over dimensions of the categorical
log-probability of each action component. -/
noncomputable def mcLogProb (logits : List ℚ) (nvec : List Nat) (action : List Nat) : ℝ :=
  (((splitLogits logits nvec).zip action).map (fun p => catLogProb p.1 p.2)).sum

/-- Python `MultiCategorical.entropy`: sum over dimensions of the per-dimension
categorical entropies. -/
noncomputable def mcEntropy (logits : List ℚ) (nvec : List Nat) : ℝ :=
  ((splitLogits logits nvec).map catEntropy).sum

/-- Python `MultiCategorical.mode`: per-dimension argmax of the split logits. -/
def mcMode (logits : List ℚ) (nvec : List Nat) : List Nat :=
  (splitLogits logits nvec).map argmaxIdx

/-- Python `_kl_multi`: sum of the per-dimension categorical KL divergences. -/
noncomputable def mcKl (l1 l2 : List ℚ) (nvec : List Nat) : ℝ :=
  (((splitLogits l1 nvec).zip (splitLogits l2 nvec)).map (fun p => catKl p.1 p.2)).sum

/-! ### `PPOTrainer.collect_rollout`

The environment is an abstract deterministic machine over an internal state
type `S` with observations `O` and actions `A`; `reset` and `step` are the
gymnasium contract.  The networks appear through a `Policy` record: `act`
is the sampled action for the current observation (the sampling draw is
folded into the environment-style determinism), `logp` the joint
log-probability of that draw, `value` the critic's estimate.  Each loop
iteration samples an action, steps the environment, records the transition
with `done := terminated` (the code's `dones.append(terminated)`), and on
`terminated or truncated` resets the environment, else continues from
`next_state`; after `H` iterations the critic evaluates the last observed
state as the bootstrap value. -/

structure StepResult (O : Type) where
  obs : O
  reward : ℚ
  terminated : Bool
  truncated : Bool

structure Env (S O A : Type) where
  reset : S → O × S
  step : S → A → StepResult O × S

structure Policy (O A : Type) where
  act : O → A
  logp : O → A → ℚ
  value : O → ℚ

structure Transition (O A : Type) where
  state : O
  action : A
  reward : ℚ
  value : ℚ
  logProb : ℚ
  done : Bool

/-- One iteration of the collection loop: sample, step, record, and compute
the observation/state the next iteration starts from. -/
def stepOnce {S O A : Type} (env : Env S O A) (pol : Policy O A) (os : O × S) :
    Transition O A × (O × S) :=
  let a := pol.act os.1
  let rs := env.step os.2 a
  (⟨os.1, a, rs.1.reward, pol.value os.1, pol.logp os.1 a, rs.1.terminated⟩,
    if rs.1.terminated || rs.1.truncated then env.reset rs.2 else (rs.1.obs, rs.2))

def rolloutSteps {S O A : Type} (env : Env S O A) (pol : Policy O A) :
    Nat → O × S → List (Transition O A) × (O × S)
  | 0, os => ([], os)
  | n + 1, os =>
    let st := stepOnce env pol os
    let rest := rolloutSteps env pol n st.2
    (st.1 :: rest.1, rest.2)

/-- Python `collect_rollout`: reset once, run `H` loop iterations, then evaluate
the critic on the last observed state as the bootstrap value. -/
def collectRollout {S O A : Type} (env : Env S O A) (pol : Policy O A) (H : Nat) (s0 : S) :
    List (Transition O A) × ℚ :=
  let start := env.reset s0
  let r := rolloutSteps env pol H start
  (r.1, pol.value r.2.1)

/-- The observation/state pair at the start of loop iteration `t`. -/
def preState {S O A : Type} (env : Env S O A) (pol : Policy O A) (start : O × S) :
    Nat → O × S
  | 0 => start
  | t + 1 => (stepOnce env pol (preState env pol start t)).2

/-- The raw `env.step` result of loop iteration `t`. -/
def stepResultAt {S O A : Type} (env : Env S O A) (pol : Policy O A) (start : O × S)
    (t : Nat) : StepResult O × S :=
  env.step (preState env pol start t).2 (pol.act (preState env pol start t).1)

/-! ### Action-space dispatch in `PPOTrainer.__init__` -/

inductive GymActionSpace where
  | multiDiscrete (nvec : List Nat)
  | discrete (n : Nat)
  | box (shape : List Nat)
  | other (descr : String)

structure SpaceConfig where
  nLogits : Option (List Nat)
  actionDim : Nat
  discrete : Bool

/-- The `isinstance` chain of `PPOTrainer.__init__`: `MultiDiscrete` keeps
its `nvec`; a plain `Discrete(n)` becomes one factored dimension of
cardinality `n`; `Box` is continuous with `action_dim = shape[0]`;
everything else raises `NotImplementedError`. -/
def initActionConfig : GymActionSpace → Except String SpaceConfig
  | .multiDiscrete nvec => .ok ⟨some nvec, nvec.length, true⟩
  | .discrete n => .ok ⟨some [n], 1, true⟩
  | .box shape => .ok ⟨none, shape.getD 0 0, false⟩
  | .other descr => .error ("Unsupported action space: " ++ descr)

/-! ### `PPOTrainer.save_model` / `load_model`

The checkpoint is a string-keyed dictionary; the filesystem is an abstract
map from paths to stored checkpoints.  `load_model` raises before touching
any field when the file is missing; otherwise it installs the four state
dicts in source order (a missing key would fault midway, after the earlier
assignments — faithful to the Python `KeyError` behaviour). -/

structure AgentParams (V : Type) where
  actorSd : V
  criticSd : V
  actorOptSd : V
  criticOptSd : V

def checkpointPath (filename : String) : String := "checkpoints/" ++ filename

def loadModel {V : Type} (fs : String → Option (List (String × V)))
    (t : AgentParams V) (filename : String) : AgentParams V × Option String :=
  match fs (checkpointPath filename) with
  | none => (t, some ("Checkpoint " ++ checkpointPath filename ++ " doesn't exist!"))
  | some ckpt =>
    match ckpt.lookup "actor_state_dict" with
    | none => (t, some "KeyError: actor_state_dict")
    | some a =>
      let t1 := { t with actorSd := a }
      match ckpt.lookup "critic_state_dict" with
      | none => (t1, some "KeyError: critic_state_dict")
      | some c =>
        let t2 := { t1 with criticSd := c }
        match ckpt.lookup "actor_optimizer_state_dict" with
        | none => (t2, some "KeyError: actor_optimizer_state_dict")
        | some ao =>
          let t3 := { t2 with actorOptSd := ao }
          match ckpt.lookup "critic_optimizer_state_dict" with
          | none => (t3, some "KeyError: critic_optimizer_state_dict")
          | some co => ({ t3 with criticOptSd := co }, none)

/-! ### Concrete instances used by witnesses -/

/-- A concrete environment: every step ends a truncated-but-not-terminated
episode, resetting to observation `0`. -/
def envW : Env Nat Nat Nat :=
  { reset := fun s => (0, s)
    step := fun s _a => (⟨5, 2, false, true⟩, s + 1) }

/-- A concrete environment whose steps alternate plain / terminated. -/
def envW2 : Env Nat Nat Nat :=
  { reset := fun s => (7, s)
    step := fun s _a => (⟨s + 1, 1, s % 2 == 0, false⟩, s + 1) }

def polW : Policy Nat Nat :=
  { act := fun o => o + 1
    logp := fun _ _ => 0
    value := fun o => (o : ℚ) }

/-- A filesystem with no checkpoint files at all. -/
def fsMissing : String → Option (List (String × ℚ)) := fun _ => none

/-- A stored checkpoint with all four required fields. -/
def ckptW : List (String × ℚ) :=
  [("actor_state_dict", 1), ("critic_state_dict", 2),
   ("actor_optimizer_state_dict", 3), ("critic_optimizer_state_dict", 4)]

/-- A filesystem holding exactly the checkpoint `model.pt`. -/
def fsPresent : String → Option (List (String × ℚ)) := fun p =>
  if p = checkpointPath "model.pt" then some ckptW else none

def agentW : AgentParams ℚ := ⟨0, 0, 0, 0⟩

end PPOSpec

namespace PPOSpec

/-! ## Supporting lemmas -/

theorem computeGaeList_length (gamma lam : ℚ) :
    ∀ (r v d : List ℚ) (b : ℚ), r.length = v.length → r.length = d.length →
      (computeGaeList gamma lam r v d b).length = r.length := by
  intro r
  induction r with
  | nil => intro v d b _ _; simp [computeGaeList]
  | cons r0 rs ih =>
    intro v d b hv hd
    cases v with
    | nil => simp at hv
    | cons v0 vs =>
      cases d with
      | nil => simp at hd
      | cons d0 ds =>
        simp only [computeGaeList, List.length_cons]
        rw [ih vs ds b (by simpa using hv) (by simpa using hd)]

/-- Index characterization of the backward GAE pass: the advantage at `t`
is the TD error `δ_t` plus the carried term `γ·λ·(1−done_t)·A_{t+1}`, where
`A_{t+1}` is read off the advantage list itself (0 past the end, matching
the loop's initial `last_gae = 0`) and the next value is `values[t+1]`
(the bootstrap value past the end). -/
theorem computeGaeList_getD (gamma lam : ℚ) :
    ∀ (r v d : List ℚ) (b : ℚ) (t : Nat),
      r.length = v.length → r.length = d.length → t < r.length →
      (computeGaeList gamma lam r v d b).getD t 0 =
        (r.getD t 0 + gamma * (v.getD (t+1) b) * (1 - d.getD t 0) - v.getD t 0)
          + gamma * lam * (1 - d.getD t 0) * ((computeGaeList gamma lam r v d b).getD (t+1) 0) := by
  intro r
  induction r with
  | nil => intro v d b t _ _ ht; simp at ht
  | cons r0 rs ih =>
    intro v d b t hv hd ht
    cases v with
    | nil => simp at hv
    | cons v0 vs =>
      cases d with
      | nil => simp at hd
      | cons d0 ds =>
        cases t with
        | zero =>
          simp only [computeGaeList, List.getD_cons_zero, List.getD_cons_succ]
          cases vs with
          | nil =>
            cases hrest : computeGaeList gamma lam rs [] ds b with
            | nil => simp [hrest]
            | cons a rest' =>
              have hrs : rs = [] := by
                have h := hv; simp at h; exact h
              subst hrs
              simp [computeGaeList] at hrest
          | cons v1 vs' =>
            cases hrest : computeGaeList gamma lam rs (v1 :: vs') ds b with
            | nil => simp [hrest]
            | cons a rest' => simp [hrest]
        | succ t' =>
          simp only [computeGaeList, List.getD_cons_succ]
          exact ih vs ds b t' (by simpa using hv) (by simpa using hd) (by simpa using ht)

theorem preState_shift {S O A : Type} (env : Env S O A) (pol : Policy O A) (start : O × S) :
    ∀ t : Nat, preState env pol (stepOnce env pol start).2 t = preState env pol start (t + 1) := by
  intro t
  induction t with
  | zero => rfl
  | succ t ih =>
    show (stepOnce env pol (preState env pol (stepOnce env pol start).2 t)).2 = _
    rw [ih]
    rfl

/-- The collection loop produces exactly the transitions read off the
iteration trace `preState`, and finishes at `preState _ _ _ H`. -/
theorem rolloutSteps_trace {S O A : Type} (env : Env S O A) (pol : Policy O A) :
    ∀ (n : Nat) (start : O × S),
      (rolloutSteps env pol n start).1 =
        (List.range n).map (fun t => (stepOnce env pol (preState env pol start t)).1) ∧
      (rolloutSteps env pol n start).2 = preState env pol start n := by
  intro n
  induction n with
  | zero => intro start; exact ⟨rfl, rfl⟩
  | succ n ih =>
    intro start
    obtain ⟨ih1, ih2⟩ := ih (stepOnce env pol start).2
    constructor
    · show (stepOnce env pol start).1 :: (rolloutSteps env pol n (stepOnce env pol start).2).1 = _
      rw [ih1, List.range_succ_eq_map, List.map_cons, List.map_map]
      congr 1
      apply List.map_congr_left
      intro t _
      simp only [Function.comp_apply]
      rw [preState_shift]
    · show (rolloutSteps env pol n (stepOnce env pol start).2).2 = _
      rw [ih2, preState_shift]

/-! ## Claims -/

/-- C1: for every trajectory (any equal-length rewards, values, dones and
any bootstrap value), the pair `(advantages, returns)` produced by
`compute_gae` satisfies `returns[t] = advantages[t] + values[t]` exactly,
for every index `t < H`. -/
theorem C1_returns_eq_advantages_plus_values (gamma lam : ℚ) (r v d : List ℚ) (b : ℚ)
    (t : Nat) (hv : r.length = v.length) (hd : r.length = d.length) (ht : t < r.length) :
    (computeGae gamma lam r v d b).2.getD t 0 =
      (computeGae gamma lam r v d b).1.getD t 0 + v.getD t 0 := by
  have hlen : (computeGaeList gamma lam r v d b).length = r.length :=
    computeGaeList_length gamma lam r v d b hv hd
  have h1 : t < (computeGaeList gamma lam r v d b).length := by rw [hlen]; exact ht
  have h2 : t < v.length := hv ▸ ht
  have hz : t < ((computeGaeList gamma lam r v d b).zipWith (· + ·) v).length := by
    rw [List.length_zipWith]; omega
  simp only [computeGae]
  rw [List.getD_eq_getElem _ _ hz, List.getD_eq_getElem _ _ h1, List.getD_eq_getElem _ _ h2]
  rw [List.getElem_zipWith]

theorem C1_witness :
    (computeGae (99/100) (95/100) [1, 2] [3, 4] [0, 0] 5).2.getD 0 0 =
      (computeGae (99/100) (95/100) [1, 2] [3, 4] [0, 0] 5).1.getD 0 0
        + ([3, 4] : List ℚ).getD 0 0 :=
  C1_returns_eq_advantages_plus_values (99/100) (95/100) [1, 2] [3, 4] [0, 0] 5 0
    (by decide) (by decide) (by decide)

/-- C2: in one `train_step` call, an epoch whose approximate KL exceeds
`1.5 × target_kl` ends the epoch loop without applying that epoch's
gradient step (parameters unchanged from that point, zero further steps,
only that epoch's metrics recorded); in particular, when the first epoch's
KL is within bound but the second epoch's KL exceeds it, exactly one
gradient step is applied, the final parameters are one step from the start,
and the reported diagnostics are the averages over the two epochs that
ran. -/
theorem C2_early_stop {σ : Type} (loss vloss kl : σ → ℚ) (grad : σ → σ) (targetKl : ℚ)
    (p0 : σ) (h0 : ¬ kl p0 > 3 / 2 * targetKl) (h1 : kl (grad p0) > 3 / 2 * targetKl) :
    (∀ (p : σ) (n : Nat), kl p > 3 / 2 * targetKl →
        trainStepEpochs loss vloss kl grad targetKl (n + 1) p =
          ⟨[loss p], [vloss p], [kl p], p, 0⟩) ∧
    (trainStep loss vloss kl grad targetKl p0).2.2 = 1 ∧
    (trainStep loss vloss kl grad targetKl p0).2.1 = grad p0 ∧
    (trainStep loss vloss kl grad targetKl p0).1.klDiv = (kl p0 + kl (grad p0)) / 2 ∧
    (trainStep loss vloss kl grad targetKl p0).1.totalLoss = (loss p0 + loss (grad p0)) / 2 ∧
    (trainStep loss vloss kl grad targetKl p0).1.valueLoss = (vloss p0 + vloss (grad p0)) / 2 := by
  have hgen : ∀ (p : σ) (n : Nat), kl p > 3 / 2 * targetKl →
      trainStepEpochs loss vloss kl grad targetKl (n + 1) p =
        ⟨[loss p], [vloss p], [kl p], p, 0⟩ := by
    intro p n hp
    simp [trainStepEpochs, hp]
  have h9 : trainStepEpochs loss vloss kl grad targetKl 9 (grad p0) =
      ⟨[loss (grad p0)], [vloss (grad p0)], [kl (grad p0)], grad p0, 0⟩ :=
    hgen (grad p0) 8 h1
  have hrun : trainStepEpochs loss vloss kl grad targetKl 10 p0 =
      ⟨[loss p0, loss (grad p0)], [vloss p0, vloss (grad p0)],
        [kl p0, kl (grad p0)], grad p0, 1⟩ := by
    rw [show (10 : Nat) = 9 + 1 from rfl]
    rw [trainStepEpochs]
    rw [if_neg h0, h9]
  refine ⟨hgen, ?_, ?_, ?_, ?_, ?_⟩ <;> simp [trainStep, hrun, listMean]

theorem C2_witness :
    (trainStep (fun p : ℚ => p) (fun p => p) (fun p => p) (fun p => p + 1) 0 0).2.2 = 1 ∧
    (trainStep (fun p : ℚ => p) (fun p => p) (fun p => p) (fun p => p + 1) 0 0).2.1 = 0 + 1 ∧
    (trainStep (fun p : ℚ => p) (fun p => p) (fun p => p) (fun p => p + 1) 0 0).1.klDiv
      = (0 + (0 + 1)) / 2 := by
  obtain ⟨-, h2, h3, h4, -, -⟩ :=
    C2_early_stop (fun p : ℚ => p) (fun p => p) (fun p => p) (fun p => p + 1) 0 0
      (by simp) (by simp)
  exact ⟨h2, h3, h4⟩


/-- C4: `collect_rollout` records exactly `H` transitions plus one trailing
bootstrap value (the critic's value at the last observed state), the `done`
flag of each recorded transition equals the environment's `terminated`
signal only, and on either `terminated` or `truncated` the next loop
iteration starts from a freshly reset environment (else from `next_state`),
collection continuing into the same buffer. -/
theorem C4_collect_rollout {S O A : Type} (env : Env S O A) (pol : Policy O A)
    (H t : Nat) (s0 : S) (dtr : Transition O A) (ht : t < H) :
    (collectRollout env pol H s0).1.length = H ∧
    (collectRollout env pol H s0).2 = pol.value (preState env pol (env.reset s0) H).1 ∧
    ((collectRollout env pol H s0).1.getD t dtr).done
      = (stepResultAt env pol (env.reset s0) t).1.terminated ∧
    (((stepResultAt env pol (env.reset s0) t).1.terminated = true ∨
        (stepResultAt env pol (env.reset s0) t).1.truncated = true) →
      preState env pol (env.reset s0) (t + 1) =
        env.reset (stepResultAt env pol (env.reset s0) t).2) ∧
    ((stepResultAt env pol (env.reset s0) t).1.terminated = false ∧
        (stepResultAt env pol (env.reset s0) t).1.truncated = false →
      preState env pol (env.reset s0) (t + 1) =
        ((stepResultAt env pol (env.reset s0) t).1.obs,
          (stepResultAt env pol (env.reset s0) t).2)) := by
  obtain ⟨h1, h2⟩ := rolloutSteps_trace env pol H (env.reset s0)
  refine ⟨?_, ?_, ?_, ?_, ?_⟩
  · show (rolloutSteps env pol H (env.reset s0)).1.length = H
    rw [h1]; simp
  · show pol.value (rolloutSteps env pol H (env.reset s0)).2.1 = _
    rw [h2]
  · show ((rolloutSteps env pol H (env.reset s0)).1.getD t dtr).done = _
    rw [h1]
    have hlen : t < ((List.range H).map
        (fun u => (stepOnce env pol (preState env pol (env.reset s0) u)).1)).length := by
      simpa using ht
    rw [List.getD_eq_getElem _ _ hlen, List.getElem_map, List.getElem_range]
    rfl
  · intro hor
    have hcond : ((stepResultAt env pol (env.reset s0) t).1.terminated
        || (stepResultAt env pol (env.reset s0) t).1.truncated) = true := by
      rcases hor with h | h <;> simp [h]
    show (stepOnce env pol (preState env pol (env.reset s0) t)).2 = _
    simp only [stepOnce, stepResultAt] at hcond ⊢
    rw [if_pos hcond]
  · intro ⟨hterm, htrunc⟩
    have hcond : ((stepResultAt env pol (env.reset s0) t).1.terminated
        || (stepResultAt env pol (env.reset s0) t).1.truncated) = false := by
      simp [hterm, htrunc]
    show (stepOnce env pol (preState env pol (env.reset s0) t)).2 = _
    simp only [stepOnce, stepResultAt] at hcond ⊢
    rw [if_neg (by simp [hcond])]

theorem C4_witness :
    (collectRollout envW2 polW 2 0).1.length = 2 ∧
    (collectRollout envW2 polW 2 0).2 = polW.value (preState envW2 polW (envW2.reset 0) 2).1 ∧
    ((collectRollout envW2 polW 2 0).1.getD 0 ⟨0, 0, 0, 0, 0, false⟩).done
      = (stepResultAt envW2 polW (envW2.reset 0) 0).1.terminated := by
  obtain ⟨h1, h2, h3, -, -⟩ :=
    C4_collect_rollout envW2 polW 2 0 0 ⟨0, 0, 0, 0, 0, false⟩ (by decide)
  exact ⟨h1, h2, h3⟩

/-- C5 counterexample: on the spec's concrete scenario the code's `A_0` is
exactly `11300161/4000000 = 2.82504025`, and the spec's claimed decimal
`2.8273` overshoots it by more than `1/500`, so `A_0` is not approximately
`2.8273` at the displayed precision. -/
theorem C5_counterexample :
    (computeGae (99/100) (95/100) [1, 1, 1] [0, 0, 0] [0, 0, 1] 0).1.getD 0 0
      = 11300161 / 4000000 ∧
    (28273 / 10000 : ℚ) - 11300161 / 4000000 > 1 / 500 := by
  constructor
  · simp [computeGae, computeGaeList]
    norm_num
  · norm_num

/-- C5 amended: on `rewards=[1,1,1]`, `values=[0,0,0]`, `dones=[0,0,1]`,
`γ=0.99`, `λ=0.95`, bootstrap `0`, `compute_gae` yields `A_2 = 1`,
`A_1 = 1 + 0.99·0.95·1 = 1.9405` and `A_0 = 1 + 0.99·0.95·A_1 = 2.82504025`
(approximately `2.8250`, not `2.8273`), and the returns equal the
advantages. -/
theorem C5_amended_concrete :
    (computeGae (99/100) (95/100) [1, 1, 1] [0, 0, 0] [0, 0, 1] 0).1 =
      [1 + 99/100 * (95/100) * (1 + 99/100 * (95/100) * 1),
       1 + 99/100 * (95/100) * 1, 1] ∧
    (computeGae (99/100) (95/100) [1, 1, 1] [0, 0, 0] [0, 0, 1] 0).2 =
      (computeGae (99/100) (95/100) [1, 1, 1] [0, 0, 0] [0, 0, 1] 0).1 ∧
    (1 + 99/100 * (95/100) * 1 : ℚ) = 19405 / 10000 ∧
    (1 + 99/100 * (95/100) * (1 + 99/100 * (95/100) * 1) : ℚ) = 282504025 / 100000000 := by
  refine ⟨?_, ?_, by norm_num, by norm_num⟩ <;> simp [computeGae, computeGaeList]

/-- C6: with GAE decay `λ = 0` the advantage at every index `t` is exactly
the one-step TD error `reward[t] + γ·next_value·(1−done[t]) − value[t]`
(next value being `values[t+1]`, or the bootstrap value at `t = H−1`),
with no recursive carry. -/
theorem C6_td0_reduction (gamma : ℚ) (r v d : List ℚ) (b : ℚ) (t : Nat)
    (hv : r.length = v.length) (hd : r.length = d.length) (ht : t < r.length) :
    (computeGae gamma 0 r v d b).1.getD t 0 =
      r.getD t 0 + gamma * (v.getD (t + 1) b) * (1 - d.getD t 0) - v.getD t 0 := by
  have h := computeGaeList_getD gamma 0 r v d b t hv hd ht
  simp only [computeGae]
  rw [h]; ring

theorem C6_witness :
    (computeGae (99/100) 0 [1, 2] [3, 4] [0, 1] 5).1.getD 1 0 =
      ([1, 2] : List ℚ).getD 1 0 + 99/100 * (([3, 4] : List ℚ).getD 2 5)
        * (1 - ([0, 1] : List ℚ).getD 1 0) - ([3, 4] : List ℚ).getD 1 0 :=
  C6_td0_reduction (99/100) [1, 2] [3, 4] [0, 1] 5 1 (by decide) (by decide) (by decide)

theorem getD_map_range {α : Type} (f : Nat → α) (d : α) (H u : Nat) (hu : u < H) :
    ((List.range H).map f).getD u d = f u := by
  have h : u < ((List.range H).map f).length := by simpa using hu
  rw [List.getD_eq_getElem _ _ h, List.getElem_map, List.getElem_range]

theorem getD_out_of_range {α : Type} (l : List α) (d : α) (n : Nat) (h : l.length ≤ n) :
    l.getD n d = d := by
  rw [List.getD_eq_getElem?_getD, List.getElem?_eq_none h]
  rfl

/-- C10: when loop iteration `H−1` of a rollout ends with `truncated` true
and `terminated` false, the bootstrap value `collect_rollout` returns is
the critic's value of the freshly reset initial observation (not of the
state reached by the last action), the recorded `done` of that transition
is `false`, and consequently the GAE advantage at index `H−1` is
`reward + γ·bootstrap − value[H−1]`, the reset-state bootstrap entering
unzeroed. -/
theorem C10_truncation_bootstrap {S O A : Type} (env : Env S O A) (pol : Policy O A)
    (gamma lam : ℚ) (H : Nat) (s0 : S) (dtr : Transition O A) (hH : 0 < H)
    (hterm : (stepResultAt env pol (env.reset s0) (H - 1)).1.terminated = false)
    (htrunc : (stepResultAt env pol (env.reset s0) (H - 1)).1.truncated = true) :
    (collectRollout env pol H s0).2 =
      pol.value (env.reset (stepResultAt env pol (env.reset s0) (H - 1)).2).1 ∧
    ((collectRollout env pol H s0).1.getD (H - 1) dtr).done = false ∧
    (computeGaeList gamma lam
        ((collectRollout env pol H s0).1.map (fun tr => tr.reward))
        ((collectRollout env pol H s0).1.map (fun tr => tr.value))
        ((collectRollout env pol H s0).1.map (fun tr => if tr.done then (1 : ℚ) else 0))
        ((collectRollout env pol H s0).2)).getD (H - 1) 0 =
      (stepResultAt env pol (env.reset s0) (H - 1)).1.reward
        + gamma * (collectRollout env pol H s0).2
        - pol.value (preState env pol (env.reset s0) (H - 1)).1 := by
  obtain ⟨h1, h2⟩ := rolloutSteps_trace env pol H (env.reset s0)
  have hsucc : H - 1 + 1 = H := Nat.succ_pred_eq_of_pos hH
  have hlt : H - 1 < H := Nat.sub_lt hH Nat.one_pos
  -- the transition recorded at iteration H-1
  have hdone : (stepOnce env pol (preState env pol (env.reset s0) (H - 1))).1.done = false :=
    hterm
  -- bootstrap value
  have hboot : (collectRollout env pol H s0).2 =
      pol.value (env.reset (stepResultAt env pol (env.reset s0) (H - 1)).2).1 := by
    show pol.value (rolloutSteps env pol H (env.reset s0)).2.1 = _
    have hpre : preState env pol (env.reset s0) (H - 1 + 1) =
        env.reset (stepResultAt env pol (env.reset s0) (H - 1)).2 := by
      show (stepOnce env pol (preState env pol (env.reset s0) (H - 1))).2 = _
      have hcond : ((stepResultAt env pol (env.reset s0) (H - 1)).1.terminated
          || (stepResultAt env pol (env.reset s0) (H - 1)).1.truncated) = true := by
        simp [hterm, htrunc]
      simp only [stepOnce, stepResultAt] at hcond ⊢
      rw [if_pos hcond]
    have hpreH : preState env pol (env.reset s0) H =
        env.reset (stepResultAt env pol (env.reset s0) (H - 1)).2 := hsucc ▸ hpre
    rw [h2, hpreH]
  refine ⟨hboot, ?_, ?_⟩
  · show ((rolloutSteps env pol H (env.reset s0)).1.getD (H - 1) dtr).done = false
    rw [h1, getD_map_range _ _ _ _ hlt]
    exact hdone
  · -- lists extracted from the trajectory
    have htrs : (collectRollout env pol H s0).1 = (List.range H).map
        (fun u => (stepOnce env pol (preState env pol (env.reset s0) u)).1) := h1
    rw [htrs]
    rw [List.map_map, List.map_map, List.map_map]
    set f := fun u => (stepOnce env pol (preState env pol (env.reset s0) u)).1 with hf
    set fv := (collectRollout env pol H s0).2 with hfv
    have hlenr : ((List.range H).map ((fun tr => tr.reward) ∘ f)).length = H := by simp
    have hlenv : ((List.range H).map ((fun tr => tr.value) ∘ f)).length = H := by simp
    have hlend : ((List.range H).map
        ((fun tr => if tr.done then (1 : ℚ) else 0) ∘ f)).length = H := by simp
    have hmain := computeGaeList_getD gamma lam
      ((List.range H).map ((fun tr => tr.reward) ∘ f))
      ((List.range H).map ((fun tr => tr.value) ∘ f))
      ((List.range H).map ((fun tr => if tr.done then (1 : ℚ) else 0) ∘ f))
      fv (H - 1) (by rw [hlenr, hlenv]) (by rw [hlenr, hlend]) (by rw [hlenr]; exact hlt)
    rw [hmain]
    have hr : ((List.range H).map ((fun tr => tr.reward) ∘ f)).getD (H - 1) 0 =
        (stepResultAt env pol (env.reset s0) (H - 1)).1.reward := by
      rw [getD_map_range _ _ _ _ hlt]
      rfl
    have hv : ((List.range H).map ((fun tr => tr.value) ∘ f)).getD (H - 1) 0 =
        pol.value (preState env pol (env.reset s0) (H - 1)).1 := by
      rw [getD_map_range _ _ _ _ hlt]
      rfl
    have hd : ((List.range H).map
        ((fun tr => if tr.done then (1 : ℚ) else 0) ∘ f)).getD (H - 1) 0 = 0 := by
      rw [getD_map_range _ _ _ _ hlt]
      simp only [Function.comp_apply, hf]
      rw [hdone]
      simp
    have hvb : ((List.range H).map ((fun tr => tr.value) ∘ f)).getD (H - 1 + 1) fv = fv := by
      apply getD_out_of_range
      rw [hlenv, hsucc]
    have hadv : (computeGaeList gamma lam
        ((List.range H).map ((fun tr => tr.reward) ∘ f))
        ((List.range H).map ((fun tr => tr.value) ∘ f))
        ((List.range H).map ((fun tr => if tr.done then (1 : ℚ) else 0) ∘ f))
        fv).getD (H - 1 + 1) 0 = 0 := by
      apply getD_out_of_range
      rw [computeGaeList_length gamma lam _ _ _ fv (by rw [hlenr, hlenv]) (by rw [hlenr, hlend]),
        hlenr, hsucc]
    rw [hr, hv, hd, hvb, hadv]
    ring

theorem C10_witness :
    (collectRollout envW polW 1 0).2 =
      polW.value (envW.reset (stepResultAt envW polW (envW.reset 0) 0).2).1 ∧
    ((collectRollout envW polW 1 0).1.getD 0 ⟨0, 0, 0, 0, 0, false⟩).done = false ∧
    (computeGaeList (1/2) (1/2)
        ((collectRollout envW polW 1 0).1.map (fun tr => tr.reward))
        ((collectRollout envW polW 1 0).1.map (fun tr => tr.value))
        ((collectRollout envW polW 1 0).1.map (fun tr => if tr.done then (1 : ℚ) else 0))
        ((collectRollout envW polW 1 0).2)).getD 0 0 =
      (stepResultAt envW polW (envW.reset 0) 0).1.reward
        + 1/2 * (collectRollout envW polW 1 0).2
        - polW.value (preState envW polW (envW.reset 0) 0).1 :=
  C10_truncation_bootstrap envW polW (1/2) (1/2) 1 0 ⟨0, 0, 0, 0, 0, false⟩
    (by decide) (by rfl) (by rfl)

/-- C8: `load_model` on a filename whose checkpoint file does not exist
fails with an error message that contains the missing path and leaves every
field of the agent unchanged; when the file exists and holds the four named
fields, loading installs all four. -/
theorem C8_load_model {V : Type} (fs : String → Option (List (String × V)))
    (t : AgentParams V) (filename : String) :
    (fs (checkpointPath filename) = none →
      loadModel fs t filename =
        (t, some ("Checkpoint " ++ checkpointPath filename ++ " doesn't exist!")) ∧
      ∃ pre post, ("Checkpoint " ++ checkpointPath filename ++ " doesn't exist!")
        = pre ++ checkpointPath filename ++ post) ∧
    (∀ (ckpt : List (String × V)) (a c ao co : V),
      fs (checkpointPath filename) = some ckpt →
      ckpt.lookup "actor_state_dict" = some a →
      ckpt.lookup "critic_state_dict" = some c →
      ckpt.lookup "actor_optimizer_state_dict" = some ao →
      ckpt.lookup "critic_optimizer_state_dict" = some co →
      loadModel fs t filename = (⟨a, c, ao, co⟩, none)) := by
  constructor
  · intro hmiss
    constructor
    · simp only [loadModel, hmiss]
    · exact ⟨"Checkpoint ", " doesn't exist!", rfl⟩
  · intro ckpt a c ao co hsome ha hc hao hco
    simp only [loadModel, hsome, ha, hc, hao, hco]

theorem C8_witness :
    loadModel fsMissing agentW "model.pt" =
      (agentW, some ("Checkpoint " ++ checkpointPath "model.pt" ++ " doesn't exist!")) ∧
    loadModel fsPresent agentW "model.pt" = (⟨1, 2, 3, 4⟩, none) := by
  refine ⟨((C8_load_model fsMissing agentW "model.pt").1 (by rfl)).1, ?_⟩
  exact (C8_load_model fsPresent agentW "model.pt").2 ckptW 1 2 3 4
    (by rfl) (by rfl) (by rfl) (by rfl) (by rfl)

/-- C9: a plain single `Discrete(n)` action space is accepted at
construction and treated as one factored-discrete dimension of cardinality
`n`; `MultiDiscrete` and `Box` are likewise accepted, and only any other
action-space shape raises the fatal `NotImplementedError`. -/
theorem C9_discrete_accepted :
    (∀ n : Nat, initActionConfig (.discrete n) = .ok ⟨some [n], 1, true⟩) ∧
    (∀ nvec : List Nat,
      initActionConfig (.multiDiscrete nvec) = .ok ⟨some nvec, nvec.length, true⟩) ∧
    (∀ shape : List Nat,
      initActionConfig (.box shape) = .ok ⟨none, shape.getD 0 0, false⟩) ∧
    (∀ descr : String,
      initActionConfig (.other descr) = .error ("Unsupported action space: " ++ descr)) :=
  ⟨fun _ => rfl, fun _ => rfl, fun _ => rfl, fun _ => rfl⟩

theorem sum_map_zip_getD2 {α β : Type} (f : α → β → ℝ) (da : α) (db : β) :
    ∀ (as : List α) (bs : List β), as.length = bs.length →
      ((as.zip bs).map (fun p => f p.1 p.2)).sum =
        ((List.range as.length).map (fun i => f (as.getD i da) (bs.getD i db))).sum := by
  intro as
  induction as with
  | nil => intro bs h; simp
  | cons a as ih =>
    intro bs h
    cases bs with
    | nil => simp at h
    | cons b bs =>
      simp only [List.zip_cons_cons, List.map_cons, List.sum_cons, List.length_cons]
      rw [List.range_succ_eq_map, List.map_cons, List.map_map, List.sum_cons]
      rw [ih bs (by simpa using h)]
      rfl

theorem sum_map_getD {α : Type} (f : α → ℝ) (da : α) :
    ∀ (as : List α),
      (as.map f).sum = ((List.range as.length).map (fun i => f (as.getD i da))).sum := by
  intro as
  induction as with
  | nil => simp
  | cons a as ih =>
    simp only [List.map_cons, List.sum_cons, List.length_cons]
    rw [List.range_succ_eq_map, List.map_cons, List.map_map, List.sum_cons]
    rw [ih]
    rfl

theorem sum_map_zip3_getD {α β γ : Type} (f : α → β → γ → ℝ) (da : α) (db : β) (dc : γ) :
    ∀ (as : List α) (bs : List β) (cs : List γ),
      as.length = bs.length → as.length = cs.length →
      ((as.zip (bs.zip cs)).map (fun p => f p.1 p.2.1 p.2.2)).sum =
        ((List.range as.length).map
          (fun i => f (as.getD i da) (bs.getD i db) (cs.getD i dc))).sum := by
  intro as
  induction as with
  | nil => intro bs cs h1 h2; simp
  | cons a as ih =>
    intro bs cs h1 h2
    cases bs with
    | nil => simp at h1
    | cons b bs =>
      cases cs with
      | nil => simp at h2
      | cons c cs =>
        simp only [List.zip_cons_cons, List.map_cons, List.sum_cons, List.length_cons]
        rw [List.range_succ_eq_map, List.map_cons, List.map_map, List.sum_cons]
        rw [ih bs cs (by simpa using h1) (by simpa using h2)]
        rfl

theorem splitLogits_count (xs : List ℚ) (nvec : List Nat) :
    (splitLogits xs nvec).length = nvec.length := by
  induction nvec generalizing xs with
  | nil => simp [splitLogits]
  | cons n ns ih => simp [splitLogits, ih]

theorem splitLogits_flatten :
    ∀ (nvec : List Nat) (xs : List ℚ), nvec.sum = xs.length →
      (splitLogits xs nvec).flatten = xs := by
  intro nvec
  induction nvec with
  | nil =>
    intro xs h
    simp at h
    have : xs = [] := List.eq_nil_of_length_eq_zero h.symm
    simp [this, splitLogits]
  | cons n ns ih =>
    intro xs h
    simp only [List.sum_cons] at h
    simp only [splitLogits, List.flatten_cons]
    rw [ih (xs.drop n) (by simp; omega)]
    exact List.take_append_drop n xs

theorem splitLogits_component_length :
    ∀ (nvec : List Nat) (xs : List ℚ), nvec.sum = xs.length →
      ∀ i, i < nvec.length → ((splitLogits xs nvec).getD i []).length = nvec.getD i 0 := by
  intro nvec
  induction nvec with
  | nil => intro xs _ i hi; simp at hi
  | cons n ns ih =>
    intro xs h i hi
    simp only [List.sum_cons] at h
    cases i with
    | zero =>
      simp only [splitLogits, List.getD_cons_zero, List.length_take]
      omega
    | succ i =>
      simp only [splitLogits, List.getD_cons_succ]
      exact ih (xs.drop n) (by simp; omega) i (by simpa using hi)

theorem catKl_self (p : List ℚ) : catKl p p = 0 := by
  simp [catKl]

theorem sum_catKl_zip_self : ∀ (l : List (List ℚ)),
    ((l.zip l).map (fun p => catKl p.1 p.2)).sum = 0 := by
  intro l
  induction l with
  | nil => simp
  | cons c l ih =>
    simp only [List.zip_cons_cons, List.map_cons, List.sum_cons, ih, catKl_self]
    simp

theorem rowLogProb_getD (mRow lsRow aRow : List ℚ) (D : Nat)
    (hm : mRow.length = D) (hl : lsRow.length = D) (ha : aRow.length = D) :
    rowLogProb mRow lsRow aRow =
      ((List.range D).map (fun d =>
        normalLogPdf ((mRow.getD d 0 : ℚ) : ℝ) (stdOfLogStd (lsRow.getD d 0))
          ((aRow.getD d 0 : ℚ) : ℝ))).sum := by
  rw [rowLogProb,
    sum_map_zip3_getD (fun (m ls a : ℚ) => normalLogPdf (m : ℝ) (stdOfLogStd ls) (a : ℝ))
      0 0 0 mRow lsRow aRow (by rw [hm, hl]) (by rw [hm, ha])]
  rw [hm]

/-- C7: for a `MultiCategorical` built from a logits vector partitioned by
the per-dimension cardinalities `nvec`, the split recovers the logits
vector with components of the stated cardinalities, the joint
log-probability of an action is the sum over dimensions of the
per-dimension categorical log-probabilities of its components, the joint
entropy is the sum of per-dimension entropies, the mode is the
per-dimension argmax of the split logits stacked, KL between two same-shape
`MultiCategorical` distributions is the sum of per-dimension categorical
KLs, and `KL(P,P) = 0` for identical parameters. -/
theorem C7_multicategorical_additivity (logits : List ℚ) (nvec : List Nat)
    (action : List Nat) (hsum : nvec.sum = logits.length)
    (hact : action.length = nvec.length) :
    (splitLogits logits nvec).flatten = logits ∧
    (∀ i, i < nvec.length → ((splitLogits logits nvec).getD i []).length = nvec.getD i 0) ∧
    mcLogProb logits nvec action =
      ((List.range nvec.length).map
        (fun i => catLogProb ((splitLogits logits nvec).getD i []) (action.getD i 0))).sum ∧
    mcEntropy logits nvec =
      ((List.range nvec.length).map
        (fun i => catEntropy ((splitLogits logits nvec).getD i []))).sum ∧
    (∀ i, i < nvec.length →
      (mcMode logits nvec).getD i 0 = argmaxIdx ((splitLogits logits nvec).getD i [])) ∧
    (∀ logits2 : List ℚ, nvec.sum = logits2.length →
      mcKl logits logits2 nvec =
        ((List.range nvec.length).map
          (fun i => catKl ((splitLogits logits nvec).getD i [])
            ((splitLogits logits2 nvec).getD i []))).sum) ∧
    mcKl logits logits nvec = 0 := by
  have hcount := splitLogits_count logits nvec
  refine ⟨splitLogits_flatten nvec logits hsum,
    splitLogits_component_length nvec logits hsum, ?_, ?_, ?_, ?_, ?_⟩
  · rw [mcLogProb,
      sum_map_zip_getD2 (fun l i => catLogProb l i) [] 0 _ _ (by rw [hcount, hact])]
    rw [hcount]
  · rw [mcEntropy, sum_map_getD catEntropy []]
    rw [hcount]
  · intro i hi
    rw [mcMode]
    have h2 : i < (splitLogits logits nvec).length := by rw [hcount]; exact hi
    have h1 : i < ((splitLogits logits nvec).map argmaxIdx).length := by
      simpa using h2
    rw [List.getD_eq_getElem _ _ h1, List.getElem_map, List.getD_eq_getElem _ _ h2]
  · intro logits2 hsum2
    have hcount2 := splitLogits_count logits2 nvec
    rw [mcKl,
      sum_map_zip_getD2 (fun l1 l2 => catKl l1 l2) [] [] _ _ (by rw [hcount, hcount2])]
    rw [hcount]
  · rw [mcKl, sum_catKl_zip_self]

theorem C7_witness :
    (splitLogits [0, 1, 2, 3, 4] [2, 3]).flatten = [0, 1, 2, 3, 4] ∧
    mcKl [0, 1, 2, 3, 4] [0, 1, 2, 3, 4] [2, 3] = 0 := by
  obtain ⟨h1, -, -, -, -, -, h7⟩ :=
    C7_multicategorical_additivity [0, 1, 2, 3, 4] [2, 3] [1, 0] (by decide) (by decide)
  exact ⟨h1, h7⟩

/-- C3 counterexample: for a batch of one state with two action dimensions
and zero log-stds, the entropy term the code computes
(`dist.entropy().mean()`, a mean over all batch × dimension entries)
differs from the spec's per-state sum of per-dimension entropies averaged
over the batch. -/
theorem C3_counterexample : contEntropyTerm [[0, 0]] ≠ contEntropySpecSum [[0, 0]] := by
  have hclamp : clampQ (-20) 2 0 = 0 := by norm_num [clampQ]
  have hstd : stdOfLogStd 0 = 1 := by
    rw [stdOfLogStd, hclamp]
    simp [Real.exp_zero]
  have hent : normalEntropy (stdOfLogStd 0) = 1 / 2 + 1 / 2 * Real.log (2 * Real.pi) := by
    rw [hstd, normalEntropy, Real.log_one, add_zero]
  have hpos : 0 < Real.log (2 * Real.pi) := by
    apply Real.log_pos
    nlinarith [Real.pi_gt_three]
  simp only [contEntropyTerm, contEntropySpecSum, entropyRows, List.map_cons, List.map_nil,
    List.flatten, List.append_nil, List.sum_cons, List.sum_nil, List.length_cons,
    List.length_nil, hent]
  intro hcontra
  norm_num at hcontra
  nlinarith [hcontra]

/-- C3 amended: for the continuous variant, the new joint log-probability
of an action in `compute_ppo_loss` is the sum over action dimensions of the
per-dimension Normal log-probabilities (as claimed), but the entropy term
is the mean of the per-dimension Normal entropies over the batch AND the
action dimensions — the spec's per-state sum averaged over the batch,
additionally divided by the number of action dimensions. -/
theorem C3_amended_loss_terms (means logStds acts : List (List ℚ)) (B D b : Nat)
    (hBm : means.length = B) (hBl : logStds.length = B) (hBa : acts.length = B)
    (hDm : ∀ row ∈ means, row.length = D)
    (hDl : ∀ row ∈ logStds, row.length = D)
    (hDa : ∀ row ∈ acts, row.length = D)
    (hb : b < B) :
    (newLogProbsCont means logStds acts).getD b 0 =
      ((List.range D).map (fun d =>
        normalLogPdf (((means.getD b []).getD d 0 : ℚ) : ℝ)
          (stdOfLogStd ((logStds.getD b []).getD d 0))
          (((acts.getD b []).getD d 0 : ℚ) : ℝ))).sum ∧
    contEntropyTerm logStds =
      ((logStds.map (fun row =>
        (row.map (fun ls => normalEntropy (stdOfLogStd ls))).sum)).sum) / ((B * D : ℕ) : ℝ) ∧
    contEntropyTerm logStds = contEntropySpecSum logStds / (D : ℝ) := by
  have hbm : b < means.length := by rw [hBm]; exact hb
  have hbl : b < logStds.length := by rw [hBl]; exact hb
  have hba : b < acts.length := by rw [hBa]; exact hb
  have hbmz : b < (means.zip (logStds.zip acts)).length := by
    rw [List.length_zip, List.length_zip]; omega
  have hlen : b < (newLogProbsCont means logStds acts).length := by
    rw [newLogProbsCont, List.length_map]; exact hbmz
  have hflatsum : (entropyRows logStds).flatten.sum =
      (logStds.map (fun row =>
        (row.map (fun ls => normalEntropy (stdOfLogStd ls))).sum)).sum := by
    rw [List.sum_flatten, entropyRows, List.map_map]
    rfl
  have hflatlen : (entropyRows logStds).flatten.length = B * D := by
    rw [List.length_flatten, entropyRows, List.map_map]
    have : (logStds.map (List.length ∘ fun row =>
        row.map (fun ls => normalEntropy (stdOfLogStd ls)))) = logStds.map (fun _ => D) := by
      apply List.map_congr_left
      intro row hrow
      simp only [Function.comp_apply, List.length_map]
      exact hDl row hrow
    rw [this, List.map_const', List.sum_replicate, smul_eq_mul, hBl, Nat.mul_comm]
  refine ⟨?_, ?_, ?_⟩
  · simp only [newLogProbsCont] at hlen ⊢
    rw [List.getD_eq_getElem _ _ hlen, List.getElem_map]
    simp only [List.getElem_zip]
    rw [rowLogProb_getD means[b] logStds[b] acts[b] D
      (hDm _ (List.getElem_mem hbm)) (hDl _ (List.getElem_mem hbl))
      (hDa _ (List.getElem_mem hba))]
    rw [List.getD_eq_getElem _ _ hbm, List.getD_eq_getElem _ _ hbl,
      List.getD_eq_getElem _ _ hba]
  · rw [contEntropyTerm, hflatsum, hflatlen]
  · rw [contEntropyTerm, contEntropySpecSum, hflatsum, hflatlen]
    have hrowslen : (entropyRows logStds).length = B := by
      rw [entropyRows, List.length_map, hBl]
    have hspecsum : ((entropyRows logStds).map List.sum).sum =
        (logStds.map (fun row =>
          (row.map (fun ls => normalEntropy (stdOfLogStd ls))).sum)).sum := by
      rw [entropyRows, List.map_map]
      rfl
    rw [hrowslen, hspecsum]
    push_cast
    rw [← div_div]

theorem C3_witness :
    contEntropyTerm [[0, 0]] = contEntropySpecSum [[0, 0]] / ((2 : ℕ) : ℝ) := by
  obtain ⟨-, -, h3⟩ := C3_amended_loss_terms [[1, 2]] [[0, 0]] [[3, 4]] 1 2 0
    (by decide) (by decide) (by decide) (by simp) (by simp) (by simp) (by decide)
  exact h3
